import Mathlib

/-!
Verification of the ai-video-maker orchestration core against its
natural-language specification.  Each Python function relevant to the
claims is shallowly embedded as an executable Lean definition; durations
and scores are modelled as rationals (the Python float computations at
stake never hit a rounding boundary that changes a comparison verdict,
as noted at each definition).
-/

deriving instance DecidableEq for Except

/- ## Subtitle generator (src/subtitle/subtitle_gen.py) -/

/-- One subtitle segment, as in `SubtitleSegment.__init__`:
`(text, start_time, end_time, index)`. Text is a list of characters. -/
structure SubtitleSeg where
  text : List Char
  start_time : ℚ
  end_time : ℚ
  index : Nat
deriving Repr, DecidableEq

/-- Python `str.strip()` on a character list (whitespace at both ends).
Python strips the full Unicode space class; the texts in the claims only
involve ASCII whitespace, which `Char.isWhitespace` covers. -/
def stripChars (l : List Char) : List Char :=
  ((l.dropWhile Char.isWhitespace).reverse.dropWhile Char.isWhitespace).reverse

/-- The duration adjustment inside `generate_from_segments`:
`if duration <= 0: duration = max(0.1, duration)`. -/
def clampDur (d : ℚ) : ℚ := if d ≤ 0 then max (1/10) d else d

/-- The `for i, (sentence, duration) in enumerate(zip(...))` loop body of
`SubtitleGenerator.generate_from_segments`, carried out over the two lists
(the caller guarantees equal lengths, so the zip truncation never fires).
`t` is `current_time`, `i` is the enumeration index. -/
def genSegsLoop : List (List Char) → List ℚ → ℚ → Nat → List SubtitleSeg
  | s :: ss, d :: ds, t, i =>
      let d' := clampDur d
      { text := stripChars s, start_time := t, end_time := t + d', index := i + 1 }
        :: genSegsLoop ss ds (t + d') (i + 1)
  | _, _, _, _ => []

/-- `SubtitleGenerator.generate_from_segments`: raises `ValueError` when the
two lists differ in length, otherwise packs segments end to end. -/
def generate_from_segments (sentences : List (List Char))
    (audio_durations : List ℚ) : Except String (List SubtitleSeg) :=
  if sentences.length ≠ audio_durations.length then
    .error "sentence/duration count mismatch"
  else
    .ok (genSegsLoop sentences audio_durations 0 0)

/- ## Sentence splitter (`SubtitleGenerator._split_into_sentences`) -/

/-- The sentence terminators of `re.split(r'[。！？!?]', text)`. -/
def isSentTerm (c : Char) : Bool :=
  c = '。' || c = '！' || c = '？' || c = '!' || c = '?'

/-- The clause separators of `re.split(r'[，、,]', sentence)`. -/
def isClauseSep (c : Char) : Bool :=
  c = '，' || c = '、' || c = ','

/-- `re.split` on a single-character class: cut the text at every
separator character, keeping empty pieces (they are filtered later, as in
the Python list comprehensions). -/
def splitOnSep (p : Char → Bool) : List Char → List (List Char)
  | [] => [[]]
  | c :: rest =>
      let r := splitOnSep p rest
      if p c then [] :: r
      else
        match r with
        | [] => [[c]]
        | h :: t => (c :: h) :: t

/-- `SubtitleGenerator._split_into_sentences`: split on sentence
terminators, strip and drop empties, then split pieces longer than
`max_chars_per_line` once more on clause separators. -/
def _split_into_sentences (max_chars : Nat) (text : List Char) :
    List (List Char) :=
  let sentences :=
    ((splitOnSep isSentTerm text).map stripChars).filter (· ≠ [])
  (sentences.map (fun s =>
    if max_chars < s.length then
      ((splitOnSep isClauseSep s).map stripChars).filter (· ≠ [])
    else [s])).flatten

/- ## Task queue (src/tasks/task_queue.py) -/

/-- `TaskStatus` enumeration. -/
inductive TStatus
  | pending | processing | completed | failed | cancelled
deriving Repr, DecidableEq

/-- `VideoTask` record (the fields the queue operations read or write;
`created_at` and the input fields are carried along unchanged so that the
record matches the dataclass).  Timestamps are abstract clock readings. -/
structure VTask where
  task_id : String
  script_path : Option String := none
  script_text : Option String := none
  materials_dir : Option String := none
  output_path : Option String := none
  status : TStatus := .pending
  created_at : Nat := 0
  started_at : Option Nat := none
  completed_at : Option Nat := none
  error_message : Option String := none
  result : Option String := none
deriving Repr, DecidableEq

/-- The queue's `self.tasks` dict: an insertion-ordered association list
keyed by task id (Python dict semantics). -/
abbrev TQueue := List (String × VTask)

/-- `self.tasks.get(task_id)` — `TaskQueue.get_task`. -/
def get_task (q : TQueue) (id : String) : Option VTask :=
  (q.find? (fun p => p.1 = id)).map (·.2)

/-- Replace the value stored under `id`, leaving other keys alone
(Python's `dict[k] = v` on an existing key). -/
def mapValueAt (q : TQueue) (id : String) (f : VTask → VTask) : TQueue :=
  q.map (fun p => if p.1 = id then (p.1, f p.2) else p)

/-- `TaskQueue.add_task`: `self.tasks[task.task_id] = task` — an existing
record under the same id is overwritten (no duplicate check). -/
def add_task (q : TQueue) (t : VTask) : TQueue :=
  if (q.find? (fun p => p.1 = t.task_id)).isSome then
    mapValueAt q t.task_id (fun _ => t)
  else q ++ [(t.task_id, t)]

/-- The field updates `TaskQueue.update_task_status` applies to a found
task.  `now` models `datetime.now()`.  `error_message`/`result` use
Python truthiness: `None` (and the empty string / empty dict, modelled as
`none`) leaves the stored value alone. -/
def applyStatusUpdate (t : VTask) (status : TStatus)
    (error_message : Option String) (result : Option String)
    (now : Nat) : VTask :=
  let t := { t with status := status }
  let t := if status = .processing ∧ t.started_at = none then
      { t with started_at := some now } else t
  let t := if status = .completed ∨ status = .failed ∨ status = .cancelled then
      { t with completed_at := some now } else t
  let t := match error_message with
    | some e => { t with error_message := some e }
    | none => t
  match result with
  | some r => { t with result := some r }
  | none => t

/-- `TaskQueue.update_task_status`: a missing id silently returns; a found
task gets the requested status unconditionally — the code checks no
transition rule. -/
def update_task_status (q : TQueue) (id : String) (status : TStatus)
    (error_message : Option String) (result : Option String)
    (now : Nat) : TQueue :=
  match get_task q id with
  | none => q
  | some _ =>
      mapValueAt q id (fun t => applyStatusUpdate t status error_message result now)

/-- `TaskQueue.cancel_task`: only a `PENDING` task is cancelled (via
`update_task_status`); any other state returns `False`, queue unchanged. -/
def cancel_task (q : TQueue) (id : String) (now : Nat) : Bool × TQueue :=
  match get_task q id with
  | none => (false, q)
  | some t =>
      if t.status ≠ .pending then (false, q)
      else (true, update_task_status q id .cancelled none none now)

/- ## Parallel batch processor (src/tasks/parallel_batch_processor.py) -/

/-- `ResourceManager.calculate_optimal_workers`'s reading of
`performance.threading.max_workers`: the string `"auto"`, an integer, or
absent (in which case `config.get` yields the default `8`, an `int`). -/
inductive MaxWorkersConfig
  | autoCfg
  | intCfg (n : Int)
  | absent
deriving Repr, DecidableEq

/-- `ResourceManager.calculate_optimal_workers`.
`base_workers = max(1, int(cpu_count * 0.67))`: for every realistic
`cpu_count` the float product `cpu_count * 0.67` truncates to
`67 * cpu_count / 100` (the fractional part of `67n/100` is at least
`1/100` away from the next integer while the float error is below
`n·2^-50`), so integer division is the faithful model.
`memory_workers = max(1, int(memory_gb / 2))` with
`memory_gb = total_bytes / 1024**3 ≥ 0`, so `int` truncation is `⌊·⌋`.
An `"auto"` config takes `min(base_workers, memory_workers)`; an integer
config `n` (the default `8` included) takes
`min(n, base_workers, memory_workers)`; the result is clamped to `≥ 1`. -/
def calculate_optimal_workers (cpu_count : Nat) (memory_gb : ℚ)
    (cfg : MaxWorkersConfig) : Int :=
  let base_workers : Int := max 1 ((67 * (cpu_count : Int)) / 100)
  let memory_workers : Int := max 1 ⌊memory_gb / 2⌋
  let config_max : Int :=
    match cfg with
    | .autoCfg => min base_workers memory_workers
    | .intCfg n => min (min n base_workers) memory_workers
    | .absent => min (min 8 base_workers) memory_workers
  max 1 config_max

/-- Outcome of one `self.video_generator(task)` call: a result map on
success, or the exception message `str(e)`. -/
abbrev GenOutcome := Except String String

/-- Final fate of `_process_single_task`'s retry loop, read as the queue
marking it performs: `completedF` marks the task `COMPLETED`, `failedF`
marks it `FAILED` with the captured message; `attempts` counts generator
invocations. `noResult` is the fall-through when `max_retries = 0`
(Python then returns `None`). -/
inductive TaskFinal
  | completedF (result : String) (attempts : Nat)
  | failedF (msg : String) (attempts : Nat)
  | noResult
deriving Repr, DecidableEq

/-- The `while retry_count < max_retries` loop of
`ParallelBatchProcessor._process_single_task`.  `gen i` is the outcome of
the `i`-th generator invocation (invocations happen in order `0,1,…`);
`fuel = max_retries - retry_count` is the number of attempts still
allowed, `i` the index of the next attempt. -/
def retryLoop (gen : Nat → GenOutcome) : Nat → Nat → TaskFinal
  | 0, _ => .noResult
  | fuel + 1, i =>
      match gen i with
      | .ok r => .completedF r (i + 1)
      | .error e =>
          if fuel = 0 then .failedF e (i + 1)
          else retryLoop gen fuel (i + 1)

/-- `ParallelBatchProcessor._process_single_task` after the initial
`PROCESSING` transition: `max_retries = retry_times if retry_on_error
else 1` (defaults: `retry_times = 3`, `retry_on_error = True`). -/
def _process_single_task (gen : Nat → GenOutcome)
    (retry_times : Nat) (retry_on_error : Bool) : TaskFinal :=
  retryLoop gen (if retry_on_error then retry_times else 1) 0

/- No timeout observation is modelled, because the program cannot make
one: `process_batch` iterates `concurrent.futures.as_completed(
future_to_task)` *without* a timeout (line 224), which yields a future
only once it has completed, so `future.result(timeout=self.task_timeout)`
at line 233 runs on completed futures only and never raises
`concurrent.futures.TimeoutError`.  The handler at lines 241-257 that
would mark the task `FAILED` with `f"任务执行超时 ({task_timeout}s)"` is
dead code, and neither `_process_single_task` nor `retryLoop` consults
`task_timeout` at all — nothing in the per-task path enforces the
deadline. -/

/- ## Video compositor (src/video_engine/compositor.py, create_slideshow) -/

/-- Python truthiness of the measured `audio_duration` (`None` and `0.0`
are falsy). -/
def qTruthy : Option ℚ → Bool
  | none => false
  | some T => T ≠ 0

/-- The per-image dwell computation of `VideoCompositor.create_slideshow`
(lines 65-76): with audio and more than one image and `transition ==
"fade"`, `(T + (n-1)·f)/n`; with audio otherwise, `T/n`; without audio,
the configured `image_duration`. `k` is `len(images)`. -/
def adjusted_image_duration (audio_duration : Option ℚ) (k : Nat)
    (image_duration : ℚ) (transition : String)
    (transition_duration : ℚ) : ℚ :=
  if qTruthy audio_duration ∧ 1 < k ∧ transition = "fade" then
    ((audio_duration.getD 0) + ((k : ℚ) - 1) * transition_duration) / k
  else if qTruthy audio_duration then
    (audio_duration.getD 0) / k
  else image_duration

/-- The cross-fade flags `create_slideshow` sets on clip `i` of `k`
(lines 91-97): `(crossfadein applied, crossfadeout applied)`.  Fades are
applied only in the `transition == "fade" and len(clips) > 1` branch. -/
def crossfade_flags (k : Nat) (transition : String) : List (Bool × Bool) :=
  if transition = "fade" ∧ 1 < k then
    (List.range k).map (fun i => (decide (0 < i), decide (i < k - 1)))
  else
    (List.range k).map (fun _ => (false, false))

/-- The length fix-up on the composed video (lines 106-119): when audio
is present and `|V - T| > 0.1`, the video is cut to `T` (`subclip(0, T)`)
or extended by a background-color `ColorClip` of length `T - V`; either
way the final length is `T`.  Otherwise the length stays `V`. -/
def final_video_duration (video_duration : ℚ) :
    Option ℚ → ℚ
  | none => video_duration
  | some T => if |video_duration - T| > 1/10 then T else video_duration

/- ## Music library (src/audio/music_library.py, models.py) -/

/-- The fields of `MusicRecommendation` that `_find_in_library` reads.
`title` is a character list (for the substring test); `safe_to_use` is
`copyright_status.is_safe_to_use`, i.e. membership of the status in
`{PUBLIC_DOMAIN, CREATIVE_COMMONS, ROYALTY_FREE}`. -/
structure MusicRec where
  title : List Char
  genre : String
  mood : String
  duration : ℚ
  safe_to_use : Bool
deriving Repr, DecidableEq

/-- A `MusicLibraryEntry` as `_find_in_library` sees it.  `age_days` is
the `.days` of `now - (last_used or downloaded_at)`, so
`MusicLibraryEntry.is_expired(max_age)` is `age_days > max_age`. -/
structure LibEntry where
  recommendation : MusicRec
  use_count : Nat
  age_days : Int
deriving Repr, DecidableEq

/-- `MusicLibraryEntry.is_expired`. -/
def is_expired (e : LibEntry) (max_age_days : Int) : Bool :=
  e.age_days > max_age_days

/-- `MusicLibraryEntry.mark_as_used`: bump `use_count` (and stamp
`last_used`, which resets `age_days` to zero). -/
def mark_as_used (e : LibEntry) : LibEntry :=
  { e with use_count := e.use_count + 1, age_days := 0 }

/-- `MusicSearchCriteria` (validation in `__post_init__` guarantees the
duration bounds are positive when present, so `none` models exactly the
falsy case of `criteria.max_duration` / `criteria.min_duration`). -/
structure SearchCriteria where
  genres : List String := ["ambient", "electronic", "classical", "jazz"]
  moods : List String := ["calm", "inspiring", "neutral"]
  max_duration : Option ℚ := none
  min_duration : Option ℚ := none
  copyright_only : Bool := true
deriving Repr, DecidableEq

/-- `pat` occurs as a contiguous run at the head of `l`
(the positive case of Python's `word in title`). -/
def headRun : List Char → List Char → Bool
  | [], _ => true
  | _ :: _, [] => false
  | a :: as, b :: bs => a == b && headRun as bs

/-- Python's substring test `word in title`. -/
def substrIn (pat : List Char) : List Char → Bool
  | [] => pat.isEmpty
  | c :: rest => headRun pat (c :: rest) || substrIn pat rest

/-- `content_lower.split()`: split on whitespace runs, dropping empties. -/
def whitespaceWords (content : List Char) : List (List Char) :=
  (splitOnSep Char.isWhitespace content).filter (· ≠ [])

/-- `any(word in rec.title.lower() for word in content_lower.split())`.
Lower-casing is modelled by `Char.toLower` (the concrete inputs in this
file are ASCII, where it agrees with Python's `str.lower`). -/
def titleKeywordMatch (content : List Char) (title : List Char) : Bool :=
  (whitespaceWords (content.map Char.toLower)).any
    (fun w => substrIn w (title.map Char.toLower))

/-- The filter part of `_find_in_library`'s loop: an entry is skipped when
expired, when `copyright_only` excludes it, or when a present duration
bound rejects it. -/
def passesFilters (max_cache_age : Int) (crit : SearchCriteria)
    (e : LibEntry) : Bool :=
  !(is_expired e max_cache_age) &&
  !(crit.copyright_only && !e.recommendation.safe_to_use) &&
  !(match crit.max_duration with
    | some m => e.recommendation.duration > m
    | none => false) &&
  !(match crit.min_duration with
    | some m => e.recommendation.duration < m
    | none => false)

/-- The match score of `_find_in_library`:
`0.4·title + 0.3·genre + 0.3·mood`, each term 0 or 1.  Exact rationals
stand in for the Python floats: every reachable float score compares to
the float literal `0.3` exactly as its rational value compares to `3/10`
(the only boundary case, a bare genre or mood match, is *equal* in both
readings, and `0.3 > 0.3` is false for floats and rationals alike). -/
def matchScore (content : List Char) (crit : SearchCriteria)
    (r : MusicRec) : ℚ :=
  (if titleKeywordMatch content r.title then 1 else 0) * (4/10) +
  (if r.genre ∈ crit.genres then 1 else 0) * (3/10) +
  (if r.mood ∈ crit.moods then 1 else 0) * (3/10)

/-- The candidate list `_find_in_library` builds, with each entry's
position in `self.entries` iteration order: entries passing the filters
whose score is strictly greater than `0.3`. -/
def libCandidates (entries : List LibEntry) (content : List Char)
    (max_cache_age : Int) (crit : SearchCriteria) :
    List (Nat × LibEntry × ℚ) :=
  (entries.enum.filterMap (fun p =>
    if passesFilters max_cache_age crit p.2 ∧
        matchScore content crit p.2.recommendation > 3/10 then
      some (p.1, p.2, matchScore content crit p.2.recommendation)
    else none))

/-- `candidates.sort(key=lambda x: (x[1], x[0].use_count), reverse=True)`
followed by `candidates[0]`: Python's sort is stable, so this picks the
first candidate attaining the lexicographic maximum of
`(score, use_count)`, which this fold computes (a later candidate
replaces the current best only when strictly greater). -/
def pickStep (best x : Nat × LibEntry × ℚ) : Nat × LibEntry × ℚ :=
  if best.2.2 < x.2.2 ∨
      (best.2.2 = x.2.2 ∧ best.2.1.use_count < x.2.1.use_count) then x
  else best

def pickBest : List (Nat × LibEntry × ℚ) → Option (Nat × LibEntry × ℚ)
  | [] => none
  | c :: cs => some (cs.foldl pickStep c)

/-- `MusicLibrary._find_in_library`: filter, score, threshold, pick the
winner (returned here with its index in the entry list so that the
caller's in-place mutation can be expressed). -/
def _find_in_library (entries : List LibEntry) (content : List Char)
    (max_cache_age : Int) (crit : SearchCriteria) :
    Option (Nat × LibEntry × ℚ) :=
  pickBest (libCandidates entries content max_cache_age crit)

/-- The local-hit path of `MusicLibrary.get_music_for_content` (lines
124-133): on a library match, `mark_as_used` runs on the stored entry
*before* the recommendation is returned.  Result: the updated entry list
and the returned recommendation, or `none` when no local match. -/
def get_music_local_hit (entries : List LibEntry) (content : List Char)
    (max_cache_age : Int) (crit : SearchCriteria) :
    Option (List LibEntry × MusicRec) :=
  match _find_in_library entries content max_cache_age crit with
  | none => none
  | some (i, e, _) =>
      some (entries.set i (mark_as_used e), (mark_as_used e).recommendation)

/- ## Font selection (src/subtitle/font_manager.py, subtitle_render.py) -/

/-- A candidate in the preferred-font list: a file path (a `Path` object
or a string containing a path separator) or a bare font name. -/
inductive FontSpec
  | path (p : String)
  | name (n : String)
deriving Repr, DecidableEq

/-- The file-system and renderer facts the font code consults.
`pathValidates`/`nameValidates` model `FontManager.validate_font` (load
the font and render the CJK probe string); `sysFontPath` models
`get_font_path`; `loads` models `ImageFont.truetype` succeeding at
render time. -/
structure FontEnv where
  pathExists : String → Bool
  pathValidates : String → Bool
  sysFontExists : String → Bool
  nameValidates : String → Bool
  sysFontPath : String → Option String
  loads : String → Bool

/-- The acceptance test of `FontManager.get_best_font`'s loop body: a path
must exist and validate; a name must exist in the system fonts and
validate. -/
def fontOk (env : FontEnv) : FontSpec → Bool
  | .path p => env.pathExists p && env.pathValidates p
  | .name n => env.sysFontExists n && env.nameValidates n

/-- `FontManager.get_best_font`: first candidate that passes, else
`None`. -/
def get_best_font (env : FontEnv) (preferred : List FontSpec) :
    Option FontSpec :=
  preferred.find? (fontOk env)

/-- `FontManager.get_default_chinese_fonts_by_platform`: the OS-specific
list plus the universal fallback appended at its end. -/
def get_default_chinese_fonts_by_platform (system : String) : List String :=
  (if system = "darwin" then
    ["STHeiti Medium", "Heiti SC", "PingFang SC", "Hiragino Sans GB",
     "STSong", "Songti SC"]
  else if system = "windows" then
    ["Microsoft YaHei", "SimHei", "SimSun", "KaiTi", "FangSong"]
  else if system = "linux" then
    ["WenQuanYi Micro Hei", "WenQuanYi Zen Hei", "Noto Sans CJK SC",
     "Droid Sans Fallback", "AR PL UMing CN"]
  else []) ++ ["Arial Unicode MS", "DejaVu Sans"]

/-- The universal fallback appended once more by
`SubtitleRenderer._initialize_font` (step 5). -/
def universal_fallback : List String := ["Arial Unicode MS", "DejaVu Sans"]

/-- The candidate list `SubtitleRenderer._initialize_font` assembles:
the explicit `font_path` (only when the file exists), the configured
`font_fallback` list, the legacy `font_name` inserted at the *front* when
configured and not already present, the platform defaults, and the
universal fallback. -/
def build_preferred_fonts (env : FontEnv) (font_path : Option String)
    (font_fallback : List FontSpec) (font_name : Option String)
    (system : String) : List FontSpec :=
  let l1 : List FontSpec :=
    match font_path with
    | some p => if env.pathExists p then [.path p] else []
    | none => []
  let l2 := l1 ++ font_fallback
  let l3 :=
    match font_name with
    | some n => if FontSpec.name n ∈ l2 then l2 else .name n :: l2
    | none => l2
  l3 ++ (get_default_chinese_fonts_by_platform system).map .name
     ++ universal_fallback.map .name

/-- What `_initialize_font` stores as `self.font`: a validated file path,
a system font name resolved to its path, or (when `get_font_path` fails)
the bare name with a "may not support Chinese" warning. -/
inductive FontSel
  | filePath (p : String)
  | sysFont (n p : String)
  | bareName (n : String)
deriving Repr, DecidableEq

/-- `SubtitleRenderer._initialize_font` after assembling the candidates:
`get_best_font`, then `RuntimeError` when nothing was found, else the
path resolution of lines 130-147. -/
def _initialize_font (env : FontEnv) (preferred : List FontSpec) :
    Except String FontSel :=
  match get_best_font env preferred with
  | none => .error "无法找到可用的中文字体"
  | some (.path p) => .ok (.filePath p)
  | some (.name n) =>
      match env.sysFontPath n with
      | some p => .ok (.sysFont n p)
      | none => .ok (.bareName n)

/-- The font actually drawn with, per `create_subtitle_image`
(subtitle_render.py lines 358-380). -/
inductive RenderFont
  | fromPath (p : String)
  | fromSelf (f : String)
  | defaultFont
deriving Repr, DecidableEq

/-- The font-loading chain of `SubtitleRenderer.create_subtitle_image`:
try the passed `font_path`, then `self.font`, and finally fall back to
`ImageFont.load_default()` with only a warning — no error is raised and
the default font is never checked against the subtitle text. -/
def chooseRenderFont (env : FontEnv) (font_path : Option String)
    (self_font : Option String) : RenderFont :=
  let step1 : Option RenderFont :=
    match font_path with
    | some p =>
        if env.pathExists p && env.loads p then some (.fromPath p) else none
    | none => none
  match step1 with
  | some f => f
  | none =>
      match self_font with
      | some f => if env.loads f then .fromSelf f else .defaultFont
      | none => .defaultFont

/- ## Lemmas about the subtitle generator -/

lemma genSegsLoop_length : ∀ (ss : List (List Char)) (ds : List ℚ) (t : ℚ)
    (i : Nat), ss.length = ds.length →
    (genSegsLoop ss ds t i).length = ss.length
  | [], _, _, _, _ => by simp [genSegsLoop]
  | s :: ss, [], t, i, h => by simp at h
  | s :: ss, d :: ds, t, i, h => by
      simp only [genSegsLoop, List.length_cons]
      rw [genSegsLoop_length ss ds _ _ (by simpa using h)]

lemma genSegsLoop_getElem? :
    ∀ (ss : List (List Char)) (ds : List ℚ) (t : ℚ) (i j : Nat)
      (seg : SubtitleSeg), (genSegsLoop ss ds t i)[j]? = some seg →
    ∃ s d, ss[j]? = some s ∧ ds[j]? = some d ∧
      seg.text = stripChars s ∧ seg.index = i + j + 1 ∧
      seg.start_time = t + ((ds.take j).map clampDur).sum ∧
      seg.end_time = t + ((ds.take (j + 1)).map clampDur).sum
  | [], ds, t, i, j, seg => by simp [genSegsLoop]
  | s :: ss, [], t, i, j, seg => by simp [genSegsLoop]
  | s :: ss, d :: ds, t, i, 0, seg => by
      intro hg
      simp only [genSegsLoop, List.getElem?_cons_zero, Option.some.injEq] at hg
      refine ⟨s, d, by simp, by simp, ?_, ?_, ?_, ?_⟩ <;> simp [← hg]
  | s :: ss, d :: ds, t, i, j + 1, seg => by
      intro hg
      simp only [genSegsLoop, List.getElem?_cons_succ] at hg
      obtain ⟨s', d', h1, h2, h3, h4, h5, h6⟩ :=
        genSegsLoop_getElem? ss ds (t + clampDur d) (i + 1) j seg hg
      refine ⟨s', d', by simpa using h1, by simpa using h2, h3, by omega, ?_, ?_⟩
      · rw [h5]; simp [List.take_cons]; ring
      · rw [h6]; simp [List.take_cons]; ring

lemma clampDur_of_pos {d : ℚ} (h : 0 < d) : clampDur d = d := by
  simp [clampDur, not_le.mpr h]

lemma clampDur_pos (d : ℚ) : 0 < clampDur d := by
  unfold clampDur
  split
  · exact lt_max_of_lt_left (by norm_num)
  · linarith [not_le.mp (by assumption : ¬ d ≤ 0)]

lemma clampDur_of_nonpos {d : ℚ} (h : d ≤ 0) : clampDur d = 1 / 10 := by
  rw [clampDur, if_pos h]
  exact max_eq_left (by linarith)

/-- C1: with equally many sentences and measured durations, all positive,
`generate_from_segments` returns exactly one segment per sentence, in
order, with `start[1] = 0`, `end[i] = start[i] + d[i]`,
`start[i+1] = end[i]`, trimmed text, index `i` (1-based), and last end
time equal to the sum of the durations. -/
theorem c1_generate_from_segments_spec (sentences : List (List Char))
    (ds : List ℚ) (hlen : sentences.length = ds.length)
    (hpos : ∀ d ∈ ds, 0 < d) :
    ∃ segs, generate_from_segments sentences ds = .ok segs ∧
      segs.length = sentences.length ∧
      (∀ j seg, segs[j]? = some seg →
        ∃ s d, sentences[j]? = some s ∧ ds[j]? = some d ∧
          seg.text = stripChars s ∧ seg.index = j + 1 ∧
          seg.start_time = (ds.take j).sum ∧
          seg.end_time = seg.start_time + d) ∧
      (∀ seg, segs[0]? = some seg → seg.start_time = 0) ∧
      (∀ j seg seg', segs[j]? = some seg → segs[j + 1]? = some seg' →
        seg'.start_time = seg.end_time) ∧
      (∀ seg, segs[segs.length - 1]? = some seg → seg.end_time = ds.sum) := by
  have hmap : ds.map clampDur = ds :=
    (List.map_congr_left fun d hd => clampDur_of_pos (hpos d hd)).trans ds.map_id
  refine ⟨genSegsLoop sentences ds 0 0, by simp [generate_from_segments, hlen], ?_, ?_, ?_, ?_, ?_⟩
  · exact genSegsLoop_length _ _ _ _ hlen
  · intro j seg hg
    obtain ⟨s, d, h1, h2, h3, h4, h5, h6⟩ := genSegsLoop_getElem? _ _ _ _ j seg hg
    have hj : j < ds.length := by
      by_contra hj
      rw [List.getElem?_eq_none (by omega)] at h2
      exact Option.noConfusion h2
    have hdj : ds[j] = d := by
      rw [List.getElem?_eq_getElem hj] at h2
      exact Option.some.inj h2
    refine ⟨s, d, h1, h2, h3, by omega, ?_, ?_⟩
    · rw [h5, List.map_take, hmap]; ring
    · rw [h6, h5, List.map_take, List.map_take, hmap]
      rw [List.sum_take_succ _ _ hj]
      rw [hdj]; ring
  · intro seg hg
    obtain ⟨s, d, _, _, _, _, h5, _⟩ := genSegsLoop_getElem? _ _ _ _ 0 seg hg
    simpa using h5
  · intro j seg seg' hg hg'
    obtain ⟨_, _, _, _, _, _, _, h6⟩ := genSegsLoop_getElem? _ _ _ _ j seg hg
    obtain ⟨_, _, _, _, _, _, h5', _⟩ := genSegsLoop_getElem? _ _ _ _ (j + 1) seg' hg'
    rw [h5', h6]
  · intro seg hg
    have hlen2 : (genSegsLoop sentences ds 0 0).length = ds.length := by
      rw [genSegsLoop_length _ _ _ _ hlen, hlen]
    obtain ⟨s, d, h1, h2, _, _, _, h6⟩ :=
      genSegsLoop_getElem? _ _ _ _ ((genSegsLoop sentences ds 0 0).length - 1) seg hg
    have hne : ds ≠ [] := by
      intro hd
      rw [hd] at h2
      simp at h2
    have hlpos : 0 < ds.length := List.length_pos.mpr hne
    have hidx : (genSegsLoop sentences ds 0 0).length - 1 + 1 = ds.length := by
      omega
    rw [h6, hidx, List.take_length, hmap]
    ring

/-- C1 witness: two sentences with durations 1 and 2. -/
theorem c1_witness :
    ∃ segs, generate_from_segments [['a'], ['b']] [1, 2] = .ok segs ∧
      segs.length = 2 ∧
      (∀ j seg, segs[j]? = some seg →
        ∃ s d, [['a'], ['b']][j]? = some s ∧ [(1 : ℚ), 2][j]? = some d ∧
          seg.text = stripChars s ∧ seg.index = j + 1 ∧
          seg.start_time = ([(1 : ℚ), 2].take j).sum ∧
          seg.end_time = seg.start_time + d) ∧
      (∀ seg, segs[0]? = some seg → seg.start_time = 0) ∧
      (∀ j seg seg', segs[j]? = some seg → segs[j + 1]? = some seg' →
        seg'.start_time = seg.end_time) ∧
      (∀ seg, segs[segs.length - 1]? = some seg →
        seg.end_time = [(1 : ℚ), 2].sum) := by
  have h := c1_generate_from_segments_spec [['a'], ['b']] [1, 2] (by decide)
    (by
      intro d hd
      simp only [List.mem_cons, List.not_mem_nil, or_false] at hd
      rcases hd with h | h <;> rw [h] <;> norm_num)
  simpa using h

/-- C10 counterexample: a positive duration smaller than 0.1 s (here
1/20 s) is *not* clamped — the produced segment has duration 1/20 < 0.1,
refuting "every produced subtitle segment has duration ≥ 0.1 s". -/
theorem c10_counterexample :
    generate_from_segments [['a']] [1 / 20] =
      .ok [{ text := ['a'], start_time := 0, end_time := 0 + 1 / 20,
             index := 1 }] ∧
    ¬ ((1 : ℚ) / 10 ≤ (0 + 1 / 20 : ℚ) - 0) := by
  constructor
  · show Except.ok (genSegsLoop [['a']] [1 / 20] 0 0) = _
    rw [show genSegsLoop [['a']] [1 / 20] 0 0 =
      [{ text := stripChars ['a'], start_time := 0,
         end_time := 0 + clampDur (1 / 20), index := 1 }] from rfl]
    rw [show stripChars ['a'] = ['a'] from by decide]
    norm_num [clampDur]
  · norm_num

/-- C10 as amended: under equal list lengths `generate_from_segments`
never raises; a duration `d ≤ 0` is replaced by 0.1 s, so every produced
segment has strictly positive duration, and duration exactly 0.1 s
whenever its input duration was ≤ 0 (a positive input duration below
0.1 s is kept as-is). -/
theorem c10_amended (sentences : List (List Char)) (ds : List ℚ)
    (hlen : sentences.length = ds.length) :
    ∃ segs, generate_from_segments sentences ds = .ok segs ∧
      ∀ (j : Nat) (seg : SubtitleSeg), segs[j]? = some seg →
        0 < seg.end_time - seg.start_time ∧
        ∀ d, ds[j]? = some d → d ≤ 0 →
          seg.end_time - seg.start_time = 1 / 10 := by
  refine ⟨genSegsLoop sentences ds 0 0,
    by simp [generate_from_segments, hlen], ?_⟩
  intro j seg hg
  obtain ⟨s, d, h1, h2, h3, h4, h5, h6⟩ := genSegsLoop_getElem? _ _ _ _ j seg hg
  have hj : j < ds.length := by
    by_contra hj
    rw [List.getElem?_eq_none (by omega)] at h2
    exact Option.noConfusion h2
  have hdj : ds[j] = d := by
    rw [List.getElem?_eq_getElem hj] at h2
    exact Option.some.inj h2
  have htake : ds.take (j + 1) = ds.take j ++ [d] := by
    rw [List.take_succ, h2]
    rfl
  have hdur : seg.end_time - seg.start_time = clampDur d := by
    rw [h5, h6, htake]
    simp [List.map_append, List.sum_append]
  constructor
  · rw [hdur]; exact clampDur_pos d
  · intro d' hd' hle
    have hdd : d' = d := by
      rw [hd'] at h2
      exact Option.some.inj h2
    rw [hdur, ← hdd]
    exact clampDur_of_nonpos hle

/-- C10 witness: a zero and a negative duration both become 0.1 s. -/
theorem c10_witness :
    ∃ segs, generate_from_segments [['a'], ['b']] [0, -3] = .ok segs ∧
      ∀ (j : Nat) (seg : SubtitleSeg), segs[j]? = some seg →
        0 < seg.end_time - seg.start_time ∧
        ∀ d, [(0 : ℚ), -3][j]? = some d → d ≤ 0 →
          seg.end_time - seg.start_time = 1 / 10 :=
  c10_amended [['a'], ['b']] [0, -3] (by decide)

/- ## Lemmas about the sentence splitter -/

lemma splitOnSep_ne_nil (p : Char → Bool) :
    ∀ l : List Char, splitOnSep p l ≠ []
  | [] => by simp [splitOnSep]
  | c :: rest => by
      simp only [splitOnSep]
      split
      · simp
      · cases hr : splitOnSep p rest <;> simp

lemma splitOnSep_no_sep (p : Char → Bool) :
    ∀ (l : List Char), ∀ piece ∈ splitOnSep p l, ∀ c ∈ piece, ¬ p c
  | [] => by
      intro piece hp c hc
      simp [splitOnSep] at hp
      subst hp
      simp at hc
  | a :: rest => by
      intro piece hp c hc
      simp only [splitOnSep] at hp
      by_cases ha : p a
      · rw [if_pos ha] at hp
        rcases List.mem_cons.mp hp with h | h
        · subst h; simp at hc
        · exact splitOnSep_no_sep p rest piece h c hc
      · rw [if_neg ha] at hp
        cases hr : splitOnSep p rest with
        | nil => exact absurd hr (splitOnSep_ne_nil p rest)
        | cons h t =>
            rw [hr] at hp
            rcases List.mem_cons.mp hp with he | he
            · subst he
              rcases List.mem_cons.mp hc with hc' | hc'
              · subst hc'; simpa using ha
              · exact splitOnSep_no_sep p rest h (hr ▸ List.mem_cons_self h t)
                  c hc'
            · exact splitOnSep_no_sep p rest piece
                (hr ▸ List.mem_cons_of_mem h he) c hc

lemma splitOnSep_mem_subset (p : Char → Bool) :
    ∀ (l : List Char), ∀ piece ∈ splitOnSep p l, ∀ c ∈ piece, c ∈ l
  | [] => by
      intro piece hp c hc
      simp [splitOnSep] at hp
      subst hp
      simp at hc
  | a :: rest => by
      intro piece hp c hc
      simp only [splitOnSep] at hp
      by_cases ha : p a
      · rw [if_pos ha] at hp
        rcases List.mem_cons.mp hp with h | h
        · subst h; simp at hc
        · exact List.mem_cons_of_mem a
            (splitOnSep_mem_subset p rest piece h c hc)
      · rw [if_neg ha] at hp
        cases hr : splitOnSep p rest with
        | nil => exact absurd hr (splitOnSep_ne_nil p rest)
        | cons h t =>
            rw [hr] at hp
            rcases List.mem_cons.mp hp with he | he
            · subst he
              rcases List.mem_cons.mp hc with hc' | hc'
              · subst hc'; exact List.mem_cons_self _ _
              · exact List.mem_cons_of_mem a
                  (splitOnSep_mem_subset p rest h
                    (hr ▸ List.mem_cons_self h t) c hc')
            · exact List.mem_cons_of_mem a
                (splitOnSep_mem_subset p rest piece
                  (hr ▸ List.mem_cons_of_mem h he) c hc)

lemma mem_stripChars {c : Char} {l : List Char} (h : c ∈ stripChars l) :
    c ∈ l := by
  unfold stripChars at h
  rw [List.mem_reverse] at h
  have h1 := (List.dropWhile_sublist Char.isWhitespace).mem h
  rw [List.mem_reverse] at h1
  exact (List.dropWhile_sublist Char.isWhitespace).mem h1

/-- C8 counterexample: with `max_chars_per_line = 2` the script `"abc"`
(no terminator, no clause separator) is returned whole: the produced
sentence has length 3 > 2, refuting "has length at most the configured
max-chars-per-line". -/
theorem c8_counterexample :
    _split_into_sentences 2 "abc".toList = [['a', 'b', 'c']] ∧
    ¬ (([ 'a', 'b', 'c'] : List Char).length ≤ 2) := by
  constructor
  · decide
  · decide

/-- C8 as amended: every sentence the splitter produces is non-empty and
contains no sentence terminator; a piece longer than the limit is split
once on clause separators, so an output piece either fits the limit or
contains no clause separator — the length bound itself is not
guaranteed. -/
theorem c8_amended (max_chars : Nat) (text : List Char) (s : List Char)
    (hs : s ∈ _split_into_sentences max_chars text) :
    s ≠ [] ∧ (∀ c ∈ s, ¬ isSentTerm c) ∧
      (s.length ≤ max_chars ∨ ∀ c ∈ s, ¬ isClauseSep c) := by
  unfold _split_into_sentences at hs
  rw [List.mem_flatten] at hs
  obtain ⟨branch, hbr, hsb⟩ := hs
  rw [List.mem_map] at hbr
  obtain ⟨s0, hs0, hbr⟩ := hbr
  rw [List.mem_filter] at hs0
  obtain ⟨hs0m, hs0ne⟩ := hs0
  rw [List.mem_map] at hs0m
  obtain ⟨piece, hpiece, hstrip⟩ := hs0m
  have hs0sub : ∀ c ∈ s0, c ∈ piece := fun c hc =>
    mem_stripChars (hstrip ▸ hc)
  have hs0term : ∀ c ∈ s0, ¬ isSentTerm c := fun c hc =>
    splitOnSep_no_sep isSentTerm text piece hpiece c (hs0sub c hc)
  by_cases hlong : max_chars < s0.length
  · rw [if_pos hlong] at hbr
    subst hbr
    rw [List.mem_filter] at hsb
    obtain ⟨hsm, hsne⟩ := hsb
    rw [List.mem_map] at hsm
    obtain ⟨piece2, hpiece2, hstrip2⟩ := hsm
    have hsub2 : ∀ c ∈ s, c ∈ piece2 := fun c hc =>
      mem_stripChars (hstrip2 ▸ hc)
    refine ⟨by simpa using hsne, ?_, Or.inr ?_⟩
    · intro c hc
      exact hs0term c
        (splitOnSep_mem_subset isClauseSep s0 piece2 hpiece2 c (hsub2 c hc))
    · intro c hc
      exact splitOnSep_no_sep isClauseSep s0 piece2 hpiece2 c (hsub2 c hc)
  · rw [if_neg hlong] at hbr
    subst hbr
    rw [List.mem_singleton] at hsb
    subst hsb
    exact ⟨by simpa using hs0ne, hs0term, Or.inl (by omega)⟩

/-- C8 witness: the script `"ab，cde。x"` with limit 2 splits into pieces
that are each non-empty and terminator-free, each either within the limit
or clause-separator-free. -/
theorem c8_witness :
    (['c', 'd', 'e'] : List Char) ∈
      _split_into_sentences 2 "ab，cde。x".toList ∧
    (['c', 'd', 'e'] ≠ ([] : List Char) ∧
      (∀ c ∈ (['c', 'd', 'e'] : List Char), ¬ isSentTerm c) ∧
      ((['c', 'd', 'e'] : List Char).length ≤ 2 ∨
        ∀ c ∈ (['c', 'd', 'e'] : List Char), ¬ isClauseSep c)) :=
  ⟨by decide, c8_amended 2 "ab，cde。x".toList ['c', 'd', 'e'] (by decide)⟩

/- ## Lemmas about the task queue -/

lemma get_task_mapValueAt (q : TQueue) (id : String) (f : VTask → VTask) :
    get_task (mapValueAt q id f) id = (get_task q id).map f := by
  induction q with
  | nil => rfl
  | cons p rest ih =>
      by_cases h : p.1 = id
      · simp only [mapValueAt, List.map_cons, if_pos h, get_task]
        rw [List.find?_cons_of_pos _ (by simpa using h),
          List.find?_cons_of_pos _ (by simpa using h)]
        rfl
      · simp only [mapValueAt, List.map_cons, if_neg h, get_task]
        rw [List.find?_cons_of_neg _ (by simpa using h),
          List.find?_cons_of_neg _ (by simpa using h)]
        exact ih

lemma get_task_mapValueAt_ne (q : TQueue) (id id' : String)
    (hne : id' ≠ id) (f : VTask → VTask) :
    get_task (mapValueAt q id f) id' = get_task q id' := by
  induction q with
  | nil => rfl
  | cons p rest ih =>
      by_cases h : p.1 = id
      · have h2 : ¬ (p.1 = id') := fun hc => hne (hc ▸ h ▸ rfl)
        simp only [mapValueAt, List.map_cons, if_pos h, get_task]
        rw [List.find?_cons_of_neg _ (by simpa using h2),
          List.find?_cons_of_neg _ (by simpa using h2)]
        exact ih
      · simp only [mapValueAt, List.map_cons, if_neg h, get_task]
        by_cases h3 : p.1 = id'
        · rw [List.find?_cons_of_pos _ (by simpa using h3),
            List.find?_cons_of_pos _ (by simpa using h3)]
        · rw [List.find?_cons_of_neg _ (by simpa using h3),
            List.find?_cons_of_neg _ (by simpa using h3)]
          exact ih

lemma applyStatusUpdate_status (t : VTask) (st : TStatus)
    (e r : Option String) (now : Nat) :
    (applyStatusUpdate t st e r now).status = st := by
  cases e <;> cases r <;> simp only [applyStatusUpdate] <;>
    split_ifs <;> rfl

lemma applyStatusUpdate_started_at (t : VTask) (st : TStatus)
    (e r : Option String) (now : Nat) (s : Nat)
    (h : t.started_at = some s) :
    (applyStatusUpdate t st e r now).started_at = some s := by
  cases e <;> cases r <;> simp only [applyStatusUpdate] <;>
    split_ifs <;> simp_all

lemma applyStatusUpdate_completed_at (t : VTask) (st : TStatus)
    (e r : Option String) (now : Nat)
    (h : t.completed_at.isSome) :
    (applyStatusUpdate t st e r now).completed_at.isSome := by
  cases e <;> cases r <;> simp only [applyStatusUpdate] <;>
    split_ifs <;> simp_all

/-- The monotone transition relation the specification describes:
`Pending → Processing → terminal`, with `Cancelled` reachable only from
`Pending` (stated from the spec's words, for comparison with the code). -/
def specAllowedTransition : TStatus → TStatus → Bool
  | .pending, .processing => true
  | .pending, .cancelled => true
  | .processing, .completed => true
  | .processing, .failed => true
  | _, _ => false

/-- C3 counterexample: the queue performs a transition *out of a terminal
state* without error — a `COMPLETED` task is moved back to `PENDING` by
`update_task_status`, although the monotone transition relation of the
spec forbids it (and no `IllegalTransition` error exists in the code). -/
theorem c3_counterexample :
    ((get_task
        (update_task_status
          [("t", { task_id := "t", status := .completed,
                   completed_at := some 5 })]
          "t" .pending none none 9)
        "t").map VTask.status = some .pending) ∧
    specAllowedTransition .completed .pending = false := by
  constructor
  · rfl
  · rfl

/-- C3 as amended: `update_task_status` performs *any* requested
transition unconditionally — there is no `IllegalTransition` and no
`UnknownId` error; an unknown id is a silent no-op.  Only `cancel_task`
restricts itself to `Pending` tasks.  Timestamps, once set, are never
cleared: a set `started_at` is never changed, and a set `completed_at`
stays set (terminal updates re-stamp it with the current time). -/
theorem c3_amended (q : TQueue) (id : String) (st : TStatus)
    (err res : Option String) (now : Nat) :
    (get_task q id = none → update_task_status q id st err res now = q) ∧
    (∀ t : VTask, get_task q id = some t →
      ∃ t', get_task (update_task_status q id st err res now) id = some t' ∧
        t'.status = st ∧
        (∀ s, t.started_at = some s → t'.started_at = some s) ∧
        (t.completed_at.isSome → t'.completed_at.isSome)) ∧
    (∀ t : VTask, get_task q id = some t → t.status ≠ .pending →
      cancel_task q id now = (false, q)) ∧
    (∀ t : VTask, get_task q id = some t → t.status = .pending →
      (cancel_task q id now).1 = true ∧
      ((get_task (cancel_task q id now).2 id).map VTask.status =
        some .cancelled)) := by
  refine ⟨?_, ?_, ?_, ?_⟩
  · intro h
    unfold update_task_status
    rw [h]
  · intro t ht
    refine ⟨applyStatusUpdate t st err res now, ?_, ?_, ?_, ?_⟩
    · unfold update_task_status
      rw [ht]
      rw [get_task_mapValueAt, ht]
      rfl
    · exact applyStatusUpdate_status t st err res now
    · exact fun s hs => applyStatusUpdate_started_at t st err res now s hs
    · exact fun hc => applyStatusUpdate_completed_at t st err res now hc
  · intro t ht hnp
    unfold cancel_task
    rw [ht]
    dsimp only
    rw [if_pos hnp]
  · intro t ht hp
    unfold cancel_task
    rw [ht]
    dsimp only
    rw [if_neg (by simp [hp])]
    refine ⟨rfl, ?_⟩
    unfold update_task_status
    rw [ht]
    dsimp only
    rw [get_task_mapValueAt, ht]
    simp [applyStatusUpdate_status]

/-- C3 witness: a `PROCESSING` task with both timestamps set is marked
`FAILED`; the status changes and both timestamps stay set. -/
theorem c3_witness :
    ∃ t', get_task
        (update_task_status
          [("t", { task_id := "t", status := .processing,
                   started_at := some 2, completed_at := some 3 })]
          "t" .failed (some "boom") none 9)
        "t" = some t' ∧
      t'.status = .failed ∧
      (∀ s, (some 2 : Option Nat) = some s → t'.started_at = some s) ∧
      ((some 3 : Option Nat).isSome → t'.completed_at.isSome) :=
  (c3_amended
      [("t", { task_id := "t", status := .processing,
               started_at := some 2, completed_at := some 3 })]
      "t" .failed (some "boom") none 9).2.1
    { task_id := "t", status := .processing,
      started_at := some 2, completed_at := some 3 } (by rfl)

/-- C6 counterexample: adding a job whose id is already present does not
fail and does not leave the record unchanged — the old record is
overwritten by the new one. -/
theorem c6_counterexample :
    get_task
        (add_task [("t", { task_id := "t", status := .pending })]
          { task_id := "t", status := .processing,
            output_path := some "new.mp4" })
        "t" =
      some { task_id := "t", status := .processing,
             output_path := some "new.mp4" } ∧
    ({ task_id := "t", status := .processing,
       output_path := some "new.mp4" } : VTask) ≠
      { task_id := "t", status := .pending } := by
  constructor
  · rfl
  · decide

/-- C6 as amended: `add_task` always succeeds; it stores the new record
under its id (replacing any existing record with that id) and leaves
records under other ids untouched. -/
theorem c6_amended (q : TQueue) (t : VTask) :
    get_task (add_task q t) t.task_id = some t ∧
    (∀ id', id' ≠ t.task_id →
      get_task (add_task q t) id' = get_task q id') := by
  constructor
  · unfold add_task
    by_cases h : (q.find? (fun p => p.1 = t.task_id)).isSome
    · rw [if_pos h, get_task_mapValueAt]
      obtain ⟨pr, hpr⟩ := Option.isSome_iff_exists.mp h
      unfold get_task
      rw [hpr]
      rfl
    · rw [if_neg h]
      unfold get_task
      rw [List.find?_append]
      rw [Option.not_isSome_iff_eq_none.mp h]
      simp [List.find?]
  · intro id' hne
    unfold add_task
    by_cases h : (q.find? (fun p => p.1 = t.task_id)).isSome
    · rw [if_pos h]
      exact get_task_mapValueAt_ne q t.task_id id' hne _
    · rw [if_neg h]
      unfold get_task
      rw [List.find?_append]
      have hnone : ([(t.task_id, t)] : TQueue).find?
          (fun p => p.1 = id') = none := by
        apply List.find?_eq_none.mpr
        intro x hx
        rw [List.mem_singleton] at hx
        subst hx
        simpa using fun hc => hne (Eq.symm hc)
      rw [hnone]
      simp

/-- C6 witness: adding a fresh job makes it retrievable and leaves an
unrelated id unchanged. -/
theorem c6_witness :
    get_task (add_task [] { task_id := "a" }) "a" =
      some { task_id := "a" } ∧
    get_task (add_task [] { task_id := "a" }) "b" = get_task [] "b" :=
  ⟨(c6_amended [] { task_id := "a" }).1,
    (c6_amended [] { task_id := "a" }).2 "b" (by decide)⟩

/- ## Lemmas about the batch processor retry loop -/

lemma retryLoop_success (gen : Nat → GenOutcome) (r : String) :
    ∀ (j fuel i : Nat), j < fuel →
      (∀ k, k < j → ∃ e, gen (i + k) = .error e) →
      gen (i + j) = .ok r →
      retryLoop gen fuel i = .completedF r (i + j + 1)
  | 0, fuel, i, hj, _, hok => by
      cases fuel with
      | zero => omega
      | succ f =>
          rw [Nat.add_zero] at hok
          simp [retryLoop, hok]
  | j + 1, fuel, i, hj, hfail, hok => by
      cases fuel with
      | zero => omega
      | succ f =>
          obtain ⟨e, he⟩ := hfail 0 (by omega)
          rw [Nat.add_zero] at he
          have hf : f ≠ 0 := by omega
          simp only [retryLoop, he]
          rw [if_neg hf]
          have hrec := retryLoop_success gen r j f (i + 1) (by omega)
            (fun k hk => by
              obtain ⟨e', he'⟩ := hfail (k + 1) (by omega)
              exact ⟨e', by rw [show i + 1 + k = i + (k + 1) from by omega]; exact he'⟩)
            (by rw [show i + 1 + j = i + (j + 1) from by omega]; exact hok)
          rw [hrec]
          congr 1
          omega

lemma retryLoop_allfail (gen : Nat → GenOutcome) (e : Nat → String) :
    ∀ (fuel i : Nat), 0 < fuel →
      (∀ k, k < fuel → gen (i + k) = .error (e (i + k))) →
      retryLoop gen fuel i = .failedF (e (i + fuel - 1)) (i + fuel)
  | 0, i, hf, _ => by omega
  | f + 1, i, _, hfail => by
      have h0 := hfail 0 (by omega)
      rw [Nat.add_zero] at h0
      simp only [retryLoop, h0]
      by_cases hf : f = 0
      · subst hf
        rw [if_pos rfl]
        rw [show i + 1 - 1 = i from rfl]
      · rw [if_neg hf]
        have h1 : i + 1 + f - 1 = i + (f + 1) - 1 := by omega
        have h2 : i + 1 + f = i + (f + 1) := by omega
        rw [retryLoop_allfail gen e f (i + 1) (by omega)
          (fun k hk => by
            rw [show i + 1 + k = i + (k + 1) from by omega]
            exact hfail (k + 1) (by omega)), h1, h2]

/-- C2 (code bug): the claim — a task exceeding `taskTimeout` is marked
`Failed` with a timeout error after exactly one attempt and is never
retried — matches the intent of the dead handler at
parallel_batch_processor.py lines 241-257, but not the code's behaviour:
no `TimeoutError` can ever be raised (see the comment above
`retryLoop`), and the worker's retry loop, which never consults
`task_timeout`, keeps going.  Evaluated at the failing input — attempt 0
outlives the deadline and then raises, attempt 1 succeeds,
`retry_times = 3` — the task is retried and ends `Completed` after two
attempts instead of `Failed{Timeout}` after one. -/
theorem c2_timeout_code_bug :
    _process_single_task
      (fun i => if i = 0 then
          .error "exception raised long after task_timeout expired"
        else .ok "ok")
      3 true = .completedF "ok" 2 := by
  decide

/- ## Worker-pool sizing (C7) -/

/-- C7 counterexample: with 4 logical CPUs and 8 GB of memory a
configured `max_workers = 100` yields a pool of
`min(100, max(1, int(4·0.67)), max(1, int(8/2))) = 2`, not 100 —
a positive integer from the config is *not* used as the pool size. -/
theorem c7_counterexample :
    calculate_optimal_workers 4 8 (.intCfg 100) = 2 ∧ (2 : Int) ≠ 100 := by
  constructor
  · norm_num [calculate_optimal_workers]
  · decide

/-- C7 as amended: a positive integer from the config is additionally
capped by the CPU-derived bound `max(1, ⌊0.67·cpu⌋)` and the
memory-derived bound `max(1, ⌊memGb/2⌋)` (so it is used only when it does
not exceed them); `"auto"` takes the minimum of those two bounds with no
further cap; an absent setting behaves like the integer default `8`.  The
result is always ≥ 1. -/
theorem c7_amended (cpu_count : Nat) (memory_gb : ℚ) (n : Int)
    (cfg : MaxWorkersConfig) :
    (calculate_optimal_workers cpu_count memory_gb .autoCfg =
      min (max 1 ((67 * (cpu_count : Int)) / 100)) (max 1 ⌊memory_gb / 2⌋)) ∧
    (0 < n → calculate_optimal_workers cpu_count memory_gb (.intCfg n) =
      max 1 (min n (min (max 1 ((67 * (cpu_count : Int)) / 100))
        (max 1 ⌊memory_gb / 2⌋)))) ∧
    (0 < n →
      calculate_optimal_workers cpu_count memory_gb (.intCfg n) ≤ n) ∧
    (calculate_optimal_workers cpu_count memory_gb .absent =
      min 8 (min (max 1 ((67 * (cpu_count : Int)) / 100))
        (max 1 ⌊memory_gb / 2⌋))) ∧
    (1 ≤ calculate_optimal_workers cpu_count memory_gb cfg) := by
  set b : Int := max 1 ((67 * (cpu_count : Int)) / 100) with hb
  set m : Int := max 1 ⌊memory_gb / 2⌋ with hm
  have hb1 : 1 ≤ b := le_max_left 1 _
  have hm1 : 1 ≤ m := le_max_left 1 _
  refine ⟨?_, ?_, ?_, ?_, ?_⟩
  · show max 1 (min b m) = min b m
    exact max_eq_right (le_min hb1 hm1)
  · intro _
    show max 1 (min (min n b) m) = max 1 (min n (min b m))
    rw [min_assoc]
  · intro hn
    show max 1 (min (min n b) m) ≤ n
    apply max_le hn
    exact le_trans (min_le_left _ _) (min_le_left _ _)
  · show max 1 (min (min 8 b) m) = min 8 (min b m)
    rw [min_assoc]
    exact max_eq_right (le_min (by norm_num) (le_min hb1 hm1))
  · cases cfg <;> exact le_max_left 1 _

/-- C7 witness: `max_workers = 100` on a 4-CPU, 8 GB machine gives
`max(1, min(100, min(2, 4))) = 2 ≤ 100`. -/
theorem c7_witness :
    (calculate_optimal_workers 4 8 (.intCfg 100) =
      max 1 (min 100 (min (max 1 ((67 * (4 : Nat)) / 100 : Int))
        (max 1 ⌊(8 : ℚ) / 2⌋)))) ∧
    calculate_optimal_workers 4 8 (.intCfg 100) ≤ 100 :=
  ⟨(c7_amended 4 8 100 .autoCfg).2.1 (by norm_num),
    (c7_amended 4 8 100 .autoCfg).2.2.1 (by norm_num)⟩

/- ## Slideshow timing (C4) -/

/-- C4: with measured audio `T ≠ 0`: more than one image and fade
transitions give dwell `(T + (k−1)·f)/k`; a single image or a non-fade
transition gives `T/k`; fade flags put a cross-fade-in on every image
except the first and a cross-fade-out on every image except the last;
and a composed length differing from `T` by more than 0.1 s is trimmed
or extended to exactly `T`, while a smaller drift is left alone. -/
theorem c4_slideshow_timing (T image_duration f V : ℚ) (k : Nat)
    (transition : String) (hT : T ≠ 0) :
    (1 < k → adjusted_image_duration (some T) k image_duration "fade" f =
      (T + ((k : ℚ) - 1) * f) / k) ∧
    (k = 1 ∨ transition ≠ "fade" →
      adjusted_image_duration (some T) k image_duration transition f =
        T / k) ∧
    (1 < k → ∀ i, i < k →
      (crossfade_flags k "fade")[i]? =
        some (decide (0 < i), decide (i < k - 1))) ∧
    (|V - T| > 1 / 10 → final_video_duration V (some T) = T) ∧
    (¬ |V - T| > 1 / 10 → final_video_duration V (some T) = V) := by
  refine ⟨?_, ?_, ?_, ?_, ?_⟩
  · intro hk
    unfold adjusted_image_duration
    rw [if_pos ⟨by simpa [qTruthy] using hT, hk, rfl⟩]
    rfl
  · intro hcase
    unfold adjusted_image_duration
    rcases hcase with hk | htr
    · subst hk
      rw [if_neg (by simp), if_pos (by simpa [qTruthy] using hT)]
      rfl
    · rw [if_neg (by simp [htr]), if_pos (by simpa [qTruthy] using hT)]
      rfl
  · intro hk i hi
    unfold crossfade_flags
    rw [if_pos ⟨rfl, hk⟩]
    rw [List.getElem?_map, List.getElem?_range hi]
    rfl
  · intro hd
    unfold final_video_duration
    dsimp only
    rw [if_pos hd]
  · intro hd
    unfold final_video_duration
    dsimp only
    rw [if_neg hd]

/-- C4 witness: the spec's scenario 2 — five images, `T = 10`,
`f = 0.5` give dwell `(10 + 4·0.5)/5 = 2.4 s`, fades on all boundaries,
and a composed length of 12 s (> 0.1 s drift) is trimmed to 10 s. -/
theorem c4_witness :
    (adjusted_image_duration (some 10) 5 5 "fade" (1 / 2) =
      (10 + ((5 : ℚ) - 1) * (1 / 2)) / 5) ∧
    ((10 + ((5 : ℚ) - 1) * (1 / 2)) / 5 = 12 / 5) ∧
    ((crossfade_flags 5 "fade")[0]? = some (false, true)) ∧
    ((crossfade_flags 5 "fade")[4]? = some (true, false)) ∧
    (final_video_duration 12 (some 10) = 10) := by
  have h := c4_slideshow_timing 10 5 (1 / 2) 12 5 "fade" (by norm_num)
  refine ⟨h.1 (by norm_num), by norm_num, ?_, ?_, ?_⟩
  · have := h.2.2.1 (by norm_num) 0 (by norm_num)
    simpa using this
  · have := h.2.2.1 (by norm_num) 4 (by norm_num)
    simpa using this
  · exact h.2.2.2.1 (by norm_num)

/- ## Lemmas about the music-library candidate selection -/

/-- `(score, use_count)` of `a` is at most that of `b` in the
lexicographic order Python's descending stable sort uses. -/
def lexLE (a b : Nat × LibEntry × ℚ) : Prop :=
  a.2.2 < b.2.2 ∨ (a.2.2 = b.2.2 ∧ a.2.1.use_count ≤ b.2.1.use_count)

lemma lexLE_refl (a : Nat × LibEntry × ℚ) : lexLE a a :=
  Or.inr ⟨rfl, le_refl _⟩

lemma lexLE_trans {a b c : Nat × LibEntry × ℚ} (h1 : lexLE a b)
    (h2 : lexLE b c) : lexLE a c := by
  rcases h1 with h1 | ⟨h1, h1u⟩ <;> rcases h2 with h2 | ⟨h2, h2u⟩
  · exact Or.inl (lt_trans h1 h2)
  · exact Or.inl (by rw [← h2]; exact h1)
  · exact Or.inl (by rw [h1]; exact h2)
  · exact Or.inr ⟨h1.trans h2, le_trans h1u h2u⟩

lemma pickStep_spec (b x : Nat × LibEntry × ℚ) :
    (pickStep b x = x ∨ pickStep b x = b) ∧
      lexLE b (pickStep b x) ∧ lexLE x (pickStep b x) := by
  unfold pickStep
  split
  · rename_i hcond
    refine ⟨Or.inl rfl, ?_, lexLE_refl x⟩
    rcases hcond with h | ⟨h, hu⟩
    · exact Or.inl h
    · exact Or.inr ⟨h, le_of_lt hu⟩
  · rename_i hcond
    push_neg at hcond
    obtain ⟨h1, h2⟩ := hcond
    refine ⟨Or.inr rfl, lexLE_refl b, ?_⟩
    rcases lt_or_eq_of_le h1 with hlt | heq
    · exact Or.inl hlt
    · exact Or.inr ⟨heq, h2 heq.symm⟩

lemma foldl_pickStep_spec :
    ∀ (cs : List (Nat × LibEntry × ℚ)) (b : Nat × LibEntry × ℚ),
    (cs.foldl pickStep b = b ∨ cs.foldl pickStep b ∈ cs) ∧
      lexLE b (cs.foldl pickStep b) ∧
      ∀ x ∈ cs, lexLE x (cs.foldl pickStep b)
  | [], b => ⟨Or.inl rfl, lexLE_refl b, by simp⟩
  | x :: cs, b => by
      obtain ⟨hmem, hb, hx⟩ := pickStep_spec b x
      obtain ⟨ihmem, ihb, ihall⟩ := foldl_pickStep_spec cs (pickStep b x)
      rw [List.foldl_cons]
      refine ⟨?_, ?_, ?_⟩
      · rcases ihmem with h | h
        · rcases hmem with h' | h'
          · exact Or.inr (by rw [h, h']; exact List.mem_cons_self x cs)
          · exact Or.inl (by rw [h, h'])
        · exact Or.inr (List.mem_cons_of_mem x h)
      · exact lexLE_trans hb ihb
      · intro y hy
        rcases List.mem_cons.mp hy with h | h
        · subst h
          exact lexLE_trans hx ihb
        · exact ihall y h

lemma pickBest_spec {cs : List (Nat × LibEntry × ℚ)}
    {c : Nat × LibEntry × ℚ} (h : pickBest cs = some c) :
    c ∈ cs ∧ ∀ x ∈ cs, lexLE x c := by
  cases cs with
  | nil => exact absurd h (by simp [pickBest])
  | cons c0 rest =>
      simp only [pickBest, Option.some.injEq] at h
      obtain ⟨hmem, hb, hall⟩ := foldl_pickStep_spec rest c0
      subst h
      constructor
      · rcases hmem with h | h
        · rw [h]; exact List.mem_cons_self c0 rest
        · exact List.mem_cons_of_mem c0 h
      · intro x hx
        rcases List.mem_cons.mp hx with h | h
        · subst h; exact hb
        · exact hall x h

lemma pickBest_none_iff (cs : List (Nat × LibEntry × ℚ)) :
    pickBest cs = none ↔ cs = [] := by
  cases cs <;> simp [pickBest]

lemma mem_libCandidates_iff (entries : List LibEntry) (content : List Char)
    (age : Int) (crit : SearchCriteria) (i : Nat) (e : LibEntry) (sc : ℚ) :
    (i, e, sc) ∈ libCandidates entries content age crit ↔
      entries[i]? = some e ∧ passesFilters age crit e = true ∧
      matchScore content crit e.recommendation > 3 / 10 ∧
      sc = matchScore content crit e.recommendation := by
  unfold libCandidates
  rw [List.mem_filterMap]
  constructor
  · rintro ⟨⟨i', e'⟩, hmem, hf⟩
    split at hf
    · rename_i hcond
      have h := Option.some.inj hf
      rw [Prod.mk.injEq, Prod.mk.injEq] at h
      obtain ⟨h1, h2, h3⟩ := h
      subst h1
      subst h2
      exact ⟨List.mk_mem_enum_iff_getElem?.mp hmem,
        by simpa using hcond.1, hcond.2, h3.symm⟩
    · exact absurd hf (by simp)
  · rintro ⟨hget, hpass, hsc, hrfl⟩
    refine ⟨(i, e), List.mk_mem_enum_iff_getElem?.mpr hget, ?_⟩
    rw [if_pos ⟨by simpa using hpass, hsc⟩, hrfl]

/-- A non-expired, copyright-safe entry matching only on genre
(score exactly 0.3) for the C5 analysis. -/
def genreOnlyEntry : LibEntry where
  recommendation :=
    { title := "tune".toList, genre := "ambient", mood := "dark",
      duration := 100, safe_to_use := true }
  use_count := 0
  age_days := 0

/-- Entry matching genre and mood (score 0.6), `use_count = 1`. -/
def entryA : LibEntry where
  recommendation :=
    { title := "a".toList, genre := "ambient", mood := "calm",
      duration := 100, safe_to_use := true }
  use_count := 1
  age_days := 0

/-- Entry matching genre and mood (score 0.6), `use_count = 5`. -/
def entryB : LibEntry where
  recommendation :=
    { title := "b".toList, genre := "ambient", mood := "calm",
      duration := 100, safe_to_use := true }
  use_count := 5
  age_days := 0

lemma genreOnly_score :
    matchScore "xyz".toList {} genreOnlyEntry.recommendation = 3 / 10 := by
  rw [matchScore, show titleKeywordMatch "xyz".toList
      genreOnlyEntry.recommendation.title = false from by decide]
  rw [if_neg (by simp), if_pos (by decide), if_neg (by decide)]
  norm_num

/-- C5 counterexample: a non-expired, copyright-safe entry matching
*only on genre* scores exactly 0.3, but the code keeps candidates with
score strictly greater than 0.3 (`if match_score > 0.3`), so the lookup
returns nothing — refuting "every candidate with score ≥ 0.3 is kept". -/
theorem c5_counterexample :
    (passesFilters 30 {} genreOnlyEntry = true) ∧
    (matchScore "xyz".toList {} genreOnlyEntry.recommendation = 3 / 10) ∧
    (_find_in_library [genreOnlyEntry] "xyz".toList 30 {} = none) := by
  refine ⟨by decide, genreOnly_score, ?_⟩
  apply (pickBest_none_iff _).mpr
  unfold libCandidates
  simp only [show ([genreOnlyEntry].enum) = [(0, genreOnlyEntry)] from rfl,
    List.filterMap_cons, List.filterMap_nil]
  rw [if_neg]
  rintro ⟨-, hgt⟩
  rw [genreOnly_score] at hgt
  exact absurd hgt (by norm_num)

/-- C5 as amended: a filtered entry is a candidate iff its score
`0.4·title + 0.3·genre + 0.3·mood` is *strictly greater* than 0.3 (so an
entry matching only on genre or only on mood is not a candidate); the
returned winner is a candidate that is lexicographically maximal in
`(score, use_count)` — ties on score go to the higher `use_count`; no
candidates means no local hit; and on a hit the winning entry is marked
used (its `use_count` incremented) before its recommendation is
returned. -/
theorem c5_amended (entries : List LibEntry) (content : List Char)
    (age : Int) (crit : SearchCriteria) :
    (∀ (i : Nat) (e : LibEntry) (sc : ℚ),
      ((i, e, sc) ∈ libCandidates entries content age crit ↔
        entries[i]? = some e ∧ passesFilters age crit e = true ∧
        matchScore content crit e.recommendation > 3 / 10 ∧
        sc = matchScore content crit e.recommendation)) ∧
    (∀ (i : Nat) (e : LibEntry) (sc : ℚ),
      _find_in_library entries content age crit = some (i, e, sc) →
      (i, e, sc) ∈ libCandidates entries content age crit ∧
      ∀ c ∈ libCandidates entries content age crit, lexLE c (i, e, sc)) ∧
    (_find_in_library entries content age crit = none ↔
      libCandidates entries content age crit = []) ∧
    (∀ (i : Nat) (e : LibEntry) (sc : ℚ),
      _find_in_library entries content age crit = some (i, e, sc) →
      get_music_local_hit entries content age crit =
        some (entries.set i (mark_as_used e),
          (mark_as_used e).recommendation) ∧
      (mark_as_used e).use_count = e.use_count + 1) := by
  refine ⟨?_, ?_, ?_, ?_⟩
  · exact fun i e sc => mem_libCandidates_iff entries content age crit i e sc
  · intro i e sc h
    exact pickBest_spec h
  · exact pickBest_none_iff _
  · intro i e sc h
    constructor
    · unfold get_music_local_hit
      rw [h]
    · rfl

lemma entryA_score :
    matchScore "xyz".toList {} entryA.recommendation = 6 / 10 := by
  rw [matchScore, show titleKeywordMatch "xyz".toList
      entryA.recommendation.title = false from by decide]
  rw [if_neg (by simp), if_pos (by decide), if_pos (by decide)]
  norm_num

lemma entryB_score :
    matchScore "xyz".toList {} entryB.recommendation = 6 / 10 := by
  rw [matchScore, show titleKeywordMatch "xyz".toList
      entryB.recommendation.title = false from by decide]
  rw [if_neg (by simp), if_pos (by decide), if_pos (by decide)]
  norm_num

lemma abCandidates :
    libCandidates [entryA, entryB] "xyz".toList 30 {} =
      [(0, entryA, 6 / 10), (1, entryB, 6 / 10)] := by
  unfold libCandidates
  simp only [show ([entryA, entryB].enum) = [(0, entryA), (1, entryB)]
      from rfl, List.filterMap_cons, List.filterMap_nil]
  rw [if_pos ⟨by decide, by rw [entryA_score]; norm_num⟩,
    if_pos ⟨by decide, by rw [entryB_score]; norm_num⟩,
    entryA_score, entryB_score]

lemma abFind :
    _find_in_library [entryA, entryB] "xyz".toList 30 {} =
      some (1, entryB, 6 / 10) := by
  unfold _find_in_library
  rw [abCandidates]
  unfold pickBest
  dsimp only
  rw [List.foldl_cons, List.foldl_nil]
  unfold pickStep
  rw [if_pos (Or.inr ⟨rfl, by decide⟩)]

/-- C5 witness: two entries both matching genre and mood (score 0.6); the
one with the higher `use_count` wins, is maximal among the candidates,
and its `use_count` is bumped before the recommendation is returned. -/
theorem c5_witness :
    ((1, entryB, (6 : ℚ) / 10) ∈
      libCandidates [entryA, entryB] "xyz".toList 30 {} ∧
      ∀ c ∈ libCandidates [entryA, entryB] "xyz".toList 30 {},
        lexLE c (1, entryB, (6 : ℚ) / 10)) ∧
    (get_music_local_hit [entryA, entryB] "xyz".toList 30 {} =
      some ([entryA, entryB].set 1 (mark_as_used entryB),
        (mark_as_used entryB).recommendation) ∧
      (mark_as_used entryB).use_count = entryB.use_count + 1) :=
  ⟨(c5_amended [entryA, entryB] "xyz".toList 30 {}).2.1 1 entryB (6 / 10)
      abFind,
    (c5_amended [entryA, entryB] "xyz".toList 30 {}).2.2.2 1 entryB (6 / 10)
      abFind⟩

/- ## Font selection (C9) -/

/-- An environment in which every candidate file exists but nothing can
be loaded or validated — the worst case for font selection. -/
def noLoadEnv : FontEnv where
  pathExists := fun _ => true
  pathValidates := fun _ => false
  sysFontExists := fun _ => false
  nameValidates := fun _ => false
  sysFontPath := fun _ => none
  loads := fun _ => false

/-- C9 counterexample: at render time (`create_subtitle_image`), when
neither the passed font path nor the initialised font can be loaded, the
code silently falls back to `ImageFont.load_default()` — it uses a font
never checked against the subtitle text instead of failing with a
`NoUsableFont` error. -/
theorem c9_counterexample :
    (∀ s, noLoadEnv.loads s = false) ∧
    chooseRenderFont noLoadEnv (some "assets/f.ttf") (some "assets/g.ttf") =
      .defaultFont := by
  exact ⟨fun _ => rfl, rfl⟩

/-- C9 as amended: *initialisation-time* selection indeed tries the
candidates in order — explicit existing path, then configured fallback,
then the platform defaults, then the universal fallback (a legacy
`font_name`, when configured, is inserted at the very front) — picks the
first that exists and passes the CJK probe check, and raises an error
when every candidate fails.  But at *render* time the PIL path
(`create_subtitle_image`) does not fail: when the chosen font cannot be
loaded it falls back to the unchecked `ImageFont.load_default()`, so a
font that cannot render the subtitle text can still be used. -/
theorem c9_amended (env : FontEnv) (fp : String)
    (fb : List FontSpec) (sys : String) (pf l1 l2 : List FontSpec)
    (f : FontSpec) (p sf : String) :
    (env.pathExists fp = true →
      build_preferred_fonts env (some fp) fb none sys =
        .path fp :: (fb ++
          (get_default_chinese_fonts_by_platform sys).map .name ++
          universal_fallback.map .name)) ∧
    (get_best_font env pf = some f → f ∈ pf ∧ fontOk env f = true) ∧
    (get_best_font env pf = none ↔ ∀ g ∈ pf, fontOk env g = false) ∧
    (pf = l1 ++ f :: l2 → (∀ g ∈ l1, fontOk env g = false) →
      fontOk env f = true → get_best_font env pf = some f) ∧
    ((∃ msg, _initialize_font env pf = .error msg) ↔
      get_best_font env pf = none) ∧
    (env.pathExists p = false ∨ env.loads p = false →
      env.loads sf = false →
      chooseRenderFont env (some p) (some sf) = .defaultFont) := by
  refine ⟨?_, ?_, ?_, ?_, ?_, ?_⟩
  · intro h
    unfold build_preferred_fonts
    dsimp only
    rw [if_pos h]
    simp
  · intro h
    exact ⟨List.mem_of_find?_eq_some h, List.find?_some h⟩
  · constructor
    · intro h g hg
      have := List.find?_eq_none.mp h g hg
      simpa using this
    · intro h
      apply List.find?_eq_none.mpr
      intro g hg
      simp [h g hg]
  · intro hpf hl1 hf
    subst hpf
    unfold get_best_font
    rw [List.find?_append]
    rw [List.find?_eq_none.mpr (fun g hg => by simp [hl1 g hg])]
    rw [Option.none_or]
    exact List.find?_cons_of_pos _ hf
  · unfold _initialize_font
    constructor
    · rintro ⟨msg, hmsg⟩
      cases hb : get_best_font env pf with
      | none => rfl
      | some f' =>
          cases f' with
          | path q => simp [hb] at hmsg
          | name n => cases hs : env.sysFontPath n <;> simp [hb, hs] at hmsg
    · intro h
      rw [h]
      exact ⟨"无法找到可用的中文字体", rfl⟩
  · intro hp hsf
    have hstep : (if (env.pathExists p && env.loads p) = true then
        some (RenderFont.fromPath p) else none) = none := by
      rcases hp with hp | hp <;> rw [hp] <;> simp
    unfold chooseRenderFont
    dsimp only
    rw [hstep]
    dsimp only
    rw [hsf]
    rfl

/-- Environment for the C9 witness: every file exists, only the
platform-default `WenQuanYi Micro Hei` is a usable system font, and
nothing loads at render time. -/
def wqEnv : FontEnv where
  pathExists := fun _ => true
  pathValidates := fun _ => false
  sysFontExists := fun n => n = "WenQuanYi Micro Hei"
  nameValidates := fun n => n = "WenQuanYi Micro Hei"
  sysFontPath := fun n =>
    if n = "WenQuanYi Micro Hei" then some "/usr/share/fonts/wqy.ttc"
    else none
  loads := fun _ => false

/-- C9 witness: the assembled candidate list starts with the explicit
path followed by the configured fallback and the platform lists; the
selector skips failing candidates and picks the first that passes; and
with loading broken at render time the unchecked default font is used. -/
theorem c9_witness :
    (build_preferred_fonts wqEnv (some "assets/f.ttf")
        [.name "Custom Font"] none "linux" =
      .path "assets/f.ttf" :: ([.name "Custom Font"] ++
        (get_default_chinese_fonts_by_platform "linux").map .name ++
        universal_fallback.map .name)) ∧
    (get_best_font wqEnv [.path "assets/f.ttf", .name "Custom Font",
      .name "WenQuanYi Micro Hei"] =
        some (.name "WenQuanYi Micro Hei")) ∧
    (chooseRenderFont wqEnv (some "other.ttf") (some "wqy.ttf") =
      .defaultFont) := by
  refine ⟨?_, ?_, ?_⟩
  · exact (c9_amended wqEnv "assets/f.ttf" [.name "Custom Font"] "linux"
      [] [] [] (.name "x") "p" "s").1 rfl
  · exact (c9_amended wqEnv "assets/f.ttf" [.name "Custom Font"] "linux"
      [.path "assets/f.ttf", .name "Custom Font",
        .name "WenQuanYi Micro Hei"]
      [.path "assets/f.ttf", .name "Custom Font"] []
      (.name "WenQuanYi Micro Hei") "p" "s").2.2.2.1
      rfl (by decide) (by decide)
  · exact (c9_amended wqEnv "assets/f.ttf" [] "linux" [] [] []
      (.name "x") "other.ttf" "wqy.ttf").2.2.2.2.2 (Or.inr rfl) rfl
